import Mathlib

set_option linter.unusedVariables false

/-!
Verification development for a small 6502 dynamic-recompiler library.

The Rust sources consist of a CPU model (registers, flag byte, 64 KiB
memory, a one-instruction step interpreter and a flag-update helper) and
a dynarec (a translator that decodes 0xA9 / 0x4C / 0x00 into a list of
micro-operations, a per-entry-address block cache, and a fallback block
that delegates to the step interpreter).

The shallow embedding below models bytes and 16-bit words as `Nat`.
Fallible operations (array indexing, checked `u16` arithmetic, which
panics on overflow in the source's debug profile) return `Except Err`.
Memory is a total function `Nat → Nat`; the source's bounds-checked
array indexing is modelled by `memRead`, which fails on any index at or
above 0x10000 exactly where the Rust index operation would panic.
-/

namespace Dynarec6502

/-- Runtime/compile-time failure of the embedded code: an out-of-bounds
memory index (the Rust array indexing panic) or a 16-bit arithmetic
overflow (the Rust `u16` addition panic under the debug profile). -/
inductive Err where
  | oobIndex (addr : Nat)
  | pcOverflow
deriving DecidableEq

/-- CPU state, mirroring `struct CPU` in `lib.rs`: 8-bit registers `a`,
`x`, `y`, `sp`, the 16-bit program counter `pc`, the flag byte `status`
and the 65536-byte memory (modelled as a total function on addresses). -/
structure CPU where
  a : Nat
  x : Nat
  y : Nat
  sp : Nat
  pc : Nat
  status : Nat
  memory : Nat → Nat

/-- Power-on state, mirroring `CPU::new`. -/
def CPU.new : CPU :=
  { a := 0, x := 0, y := 0, sp := 0xFD, pc := 0x8000, status := 0x24,
    memory := fun _ => 0 }

/-- Bounds-checked memory read: `memory[addr]` in Rust, which panics
(modelled as `Err.oobIndex`) when the index is outside the 65536-byte
array. -/
def memRead (mem : Nat → Nat) (addr : Nat) : Except Err Nat :=
  if addr < 0x10000 then .ok (mem addr) else .error (.oobIndex addr)

/-- Checked 16-bit addition: `v + k` on a Rust `u16`, which panics
(modelled as `Err.pcOverflow`) when the mathematical sum exceeds
0xFFFF. -/
def u16add (v k : Nat) : Except Err Nat :=
  if v + k ≤ 0xFFFF then .ok (v + k) else .error .pcOverflow

/-- Flag update, mirroring `CPU::update_zero_and_negative_flags`:
bit 1 (Zero) is set iff `value = 0`, bit 7 (Negative) is set iff
bit 7 of `value` is set; the two `&=` masks are the 8-bit complements
`!0b00000010 = 0b11111101` and `!0b10000000 = 0b01111111`. -/
def CPU.update_zero_and_negative_flags (cpu : CPU) (value : Nat) : CPU :=
  let s1 := if value = 0 then cpu.status ||| 0b00000010
            else cpu.status &&& 0b11111101
  let s2 := if value &&& 0b10000000 ≠ 0 then s1 ||| 0b10000000
            else s1 &&& 0b01111111
  { cpu with status := s2 }

/-- Step interpreter, mirroring `CPU::execute_instruction`: read the
opcode at `pc`, advance `pc`, then either perform LDA-immediate (opcode
0xA9) or — for every other opcode — merely log and continue. -/
def CPU.execute_instruction (cpu : CPU) : Except Err CPU := do
  let opcode ← memRead cpu.memory cpu.pc
  let pc1 ← u16add cpu.pc 1
  let cpu1 : CPU := { cpu with pc := pc1 }
  if opcode = 0xA9 then
    let value ← memRead cpu1.memory cpu1.pc
    let pc2 ← u16add cpu1.pc 1
    let cpu2 : CPU := { cpu1 with pc := pc2, a := value }
    pure (cpu2.update_zero_and_negative_flags cpu2.a)
  else
    pure cpu1

/-- A micro-operation of a compiled block: the effect captured by one of
the two closures pushed onto `instructions` in `Dynarec::translate_block`,
with its operand fixed at decode time. -/
inductive MicroOp where
  | lda (value : Nat)
  | jmp (addr : Nat)
deriving DecidableEq

/-- Effect of one micro-operation on CPU state, mirroring the closure
bodies: LDA writes `a`, updates the flags from `a` and advances `pc` by
2 (checked `u16` addition); JMP overwrites `pc` with the captured
target. -/
def runMicroOp (op : MicroOp) (cpu : CPU) : Except Err CPU :=
  match op with
  | .lda value =>
    let cpu1 : CPU := { cpu with a := value }
    let cpu2 := cpu1.update_zero_and_negative_flags cpu1.a
    do
      let pc2 ← u16add cpu2.pc 2
      pure { cpu2 with pc := pc2 }
  | .jmp addr => pure { cpu with pc := addr }

/-- Run a list of micro-operations in order, mirroring the `for inst in
&instructions` loop of the compiled-block driver closure. -/
def runOps (ops : List MicroOp) (cpu : CPU) : Except Err CPU :=
  match ops with
  | [] => pure cpu
  | op :: rest => do runOps rest (← runMicroOp op cpu)

/-- A compiled block: either the ordered micro-operations decoded at
compile time (the driver closure), or the fallback closure that
delegates to the step interpreter. -/
inductive Block where
  | compiled (ops : List MicroOp)
  | fallback
deriving DecidableEq

/-- Invoke a block, returning the final CPU state and the `u16` the
`JitFunction` returns: for a compiled block, run every micro-operation
and report the resulting `cpu.pc`; for a fallback block, run exactly one
instruction through the step interpreter and report the resulting
`cpu.pc`. -/
def invokeBlock (b : Block) (cpu : CPU) : Except Err (CPU × Nat) :=
  match b with
  | .compiled ops => do
    let c ← runOps ops cpu
    pure (c, c.pc)
  | .fallback => do
    let c ← CPU.execute_instruction cpu
    pure (c, c.pc)

/-- Decode loop of `Dynarec::translate_block` (the `or_insert_with`
closure): while the cursor is below 0xFFFF, read the opcode; 0xA9
captures its immediate and advances the cursor by 2 (checked), 0x4C
captures its little-endian target and advances by 3 (checked, and the
high-byte read `memory[pc as usize + 1]` is bounds-checked), 0x00 stops
decoding, and any other opcode returns a fallback block. The `fuel`
argument only makes the recursion structural; it starts at 0x10000,
which exceeds the number of loop iterations possible before the cursor
(strictly increasing by at least 2 per iteration) reaches 0xFFFF, so
the fuel-exhausted arm coincides with the cursor-exhausted arm and is
never the deciding case. -/
def translateLoop (mem : Nat → Nat) : Nat → Nat → List MicroOp → Except Err Block
  | 0, _, acc => .ok (.compiled acc)
  | fuel + 1, pc, acc =>
    if pc < 0xFFFF then
      let opcode := mem pc
      -- cursor < 0xFFFF here, so the increment past the opcode byte fits in u16
      let pc1 := pc + 1
      if opcode = 0xA9 then
        match memRead mem pc1 with
        | .error e => .error e
        | .ok value =>
          match u16add pc1 1 with
          | .error e => .error e
          | .ok pc2 => translateLoop mem fuel pc2 (acc ++ [.lda value])
      else if opcode = 0x4C then
        match memRead mem pc1 with
        | .error e => .error e
        | .ok low =>
          match memRead mem (pc1 + 1) with
          | .error e => .error e
          | .ok high =>
            let addr := (high <<< 8) ||| low
            match u16add pc1 2 with
            | .error e => .error e
            | .ok pc3 => translateLoop mem fuel pc3 (acc ++ [.jmp addr])
      else if opcode = 0x00 then
        .ok (.compiled acc)
      else
        .ok .fallback
    else
      .ok (.compiled acc)

/-- The translator: decode a block from memory starting at `start_pc`
(the body of the `or_insert_with` closure). -/
def translateBlock (mem : Nat → Nat) (start_pc : Nat) : Except Err Block :=
  translateLoop mem 0x10000 start_pc []

/-- Association-list lookup modelling `HashMap::get` on the block
cache. -/
def lookupBlock (entries : List (Nat × Block)) (a : Nat) : Option Block :=
  match entries with
  | [] => none
  | (k, b) :: rest => if k = a then some b else lookupBlock rest a

/-- The dynarec state: the block cache, mirroring `struct Dynarec` with
its `compiled_blocks` hash map (modelled as an association list). -/
structure Dynarec where
  compiled_blocks : List (Nat × Block)

/-- Fresh dynarec with an empty cache, mirroring `Dynarec::new`. -/
def Dynarec.new : Dynarec := ⟨[]⟩

/-- Cached translation, mirroring `Dynarec::translate_block`'s use of
`entry(start_pc).or_insert_with(...)`: return the stored block when the
address is present; otherwise run the translator, insert the result and
return it. A translator failure (a panic in Rust) leaves the cache
unchanged. -/
def Dynarec.translate_block (d : Dynarec) (mem : Nat → Nat) (start_pc : Nat) :
    Except Err (Dynarec × Block) :=
  match lookupBlock d.compiled_blocks start_pc with
  | some b => .ok (d, b)
  | none =>
    match translateBlock mem start_pc with
    | .error e => .error e
    | .ok b => .ok (⟨(start_pc, b) :: d.compiled_blocks⟩, b)

/-- Register-and-flag projection of a CPU state: everything except
memory. -/
def regsOf (c : CPU) : Nat × Nat × Nat × Nat × Nat × Nat :=
  (c.a, c.x, c.y, c.sp, c.pc, c.status)

/-! ### Concrete memory images and CPU states used as test inputs -/

/-- Memory image holding a single 0x4C (JMP absolute) opcode at address
0xFFFE, whose 16-bit operand would lie at 0xFFFF and 0x10000. -/
def memJmpAtTop : Nat → Nat := fun n => if n = 0xFFFE then 0x4C else 0

/-- Memory image with `JMP 0x9000` at 0x8000 followed by a break byte. -/
def memJmpBrk : Nat → Nat := fun n =>
  if n = 0x8000 then 0x4C else if n = 0x8001 then 0x00 else
  if n = 0x8002 then 0x90 else 0

/-- CPU at power-on with `memJmpBrk` loaded (pc = 0x8000). -/
def cpuJmp : CPU := { CPU.new with memory := memJmpBrk }

/-- Memory image with `LDA #0x42` at 0x8000 followed by a break byte. -/
def memLdaBrk : Nat → Nat := fun n =>
  if n = 0x8000 then 0xA9 else if n = 0x8001 then 0x42 else 0

/-- CPU at power-on with `memLdaBrk` loaded (pc = 0x8000). -/
def cpuLda : CPU := { CPU.new with memory := memLdaBrk }

/-- Memory image with two consecutive `LDA` instructions at 0x8000:
`LDA #0x01` then `LDA #0x02`, followed by a break byte. -/
def memDoubleLda : Nat → Nat := fun n =>
  if n = 0x8000 then 0xA9 else if n = 0x8001 then 0x01 else
  if n = 0x8002 then 0xA9 else if n = 0x8003 then 0x02 else 0

/-- CPU at power-on with `memDoubleLda` loaded (pc = 0x8000). -/
def cpuDoubleLda : CPU := { CPU.new with memory := memDoubleLda }

/-- Memory image with `JMP 0x9000` at 0x8000 followed by `LDA #0x07` and
a break byte. -/
def memJmpLda : Nat → Nat := fun n =>
  if n = 0x8000 then 0x4C else if n = 0x8001 then 0x00 else
  if n = 0x8002 then 0x90 else if n = 0x8003 then 0xA9 else
  if n = 0x8004 then 0x07 else 0

/-- CPU at power-on with `memJmpLda` loaded (pc = 0x8000). -/
def cpuJmpLda : CPU := { CPU.new with memory := memJmpLda }

/-- Memory image with a self-jump `JMP 0x8000` at 0x8000. -/
def memJmpSelf : Nat → Nat := fun n =>
  if n = 0x8000 then 0x4C else if n = 0x8001 then 0x00 else
  if n = 0x8002 then 0x80 else 0

/-- CPU at power-on with `memJmpSelf` loaded (pc = 0x8000). -/
def cpuJmpSelf : CPU := { CPU.new with memory := memJmpSelf }

/-- CPU that agrees with `CPU.new` on every register and flag but holds
a completely different memory image. -/
def cpuAltMem : CPU := { CPU.new with memory := fun n => n + 17 }

/-! ### Unfolding lemmas for the decode loop -/

lemma translateLoop_stop (mem : Nat → Nat) (fuel pc : Nat) (acc : List MicroOp)
    (hf : fuel ≠ 0) (h : 0xFFFF ≤ pc ∨ mem pc = 0) :
    translateLoop mem fuel pc acc = .ok (.compiled acc) := by
  obtain ⟨f, rfl⟩ := Nat.exists_eq_succ_of_ne_zero hf
  rcases h with h | h
  · simp [translateLoop, Nat.not_lt.mpr h]
  · rcases Nat.lt_or_ge pc 0xFFFF with hlt | hge
    · simp [translateLoop, hlt, h]
    · simp [translateLoop, Nat.not_lt.mpr hge]

lemma translateLoop_lda (mem : Nat → Nat) (fuel pc : Nat) (acc : List MicroOp)
    (hf : fuel ≠ 0) (hpc : pc < 0xFFFF) (hop : mem pc = 0xA9)
    (hov : pc + 2 ≤ 0xFFFF) :
    translateLoop mem fuel pc acc
      = translateLoop mem (fuel - 1) (pc + 2) (acc ++ [.lda (mem (pc + 1))]) := by
  obtain ⟨f, rfl⟩ := Nat.exists_eq_succ_of_ne_zero hf
  have h1 : pc + 1 < 0x10000 := by omega
  have h2 : pc + 1 + 1 ≤ 0xFFFF := by omega
  have h3 : pc + 1 + 1 = pc + 2 := by omega
  simp [translateLoop, hpc, hop, memRead, u16add, h1, h2, h3]

lemma translateLoop_jmp (mem : Nat → Nat) (fuel pc : Nat) (acc : List MicroOp)
    (hf : fuel ≠ 0) (hpc : pc < 0xFFFF) (hop : mem pc = 0x4C)
    (hov : pc + 3 ≤ 0xFFFF) :
    translateLoop mem fuel pc acc
      = translateLoop mem (fuel - 1) (pc + 3)
          (acc ++ [.jmp ((mem (pc + 2) <<< 8) ||| mem (pc + 1))]) := by
  obtain ⟨f, rfl⟩ := Nat.exists_eq_succ_of_ne_zero hf
  have h1 : pc + 1 < 0x10000 := by omega
  have h2 : pc + 1 + 1 < 0x10000 := by omega
  have h3 : pc + 1 + 2 ≤ 0xFFFF := by omega
  have h4 : pc + 1 + 1 = pc + 2 := by omega
  have h5 : pc + 1 + 2 = pc + 3 := by omega
  simp [translateLoop, hpc, hop, memRead, u16add, h1, h2, h3, h4, h5]

lemma translateLoop_unsupported (mem : Nat → Nat) (fuel pc : Nat) (acc : List MicroOp)
    (hf : fuel ≠ 0) (hpc : pc < 0xFFFF) (h9 : mem pc ≠ 0xA9) (h4c : mem pc ≠ 0x4C)
    (h0 : mem pc ≠ 0) :
    translateLoop mem fuel pc acc = .ok .fallback := by
  obtain ⟨f, rfl⟩ := Nat.exists_eq_succ_of_ne_zero hf
  simp [translateLoop, hpc, h9, h4c, h0]

/-! ### Flag-byte lemmas for `update_zero_and_negative_flags` -/

lemma and128_ne_zero_iff (v : Nat) : v &&& 128 ≠ 0 ↔ v.testBit 7 = true := by
  rw [show (128 : Nat) = 2 ^ 7 from rfl, Nat.and_two_pow]
  cases h : v.testBit 7 <;> simp

lemma update_flags_testBit1 (cpu : CPU) (v : Nat) :
    ((cpu.update_zero_and_negative_flags v).status).testBit 1 = decide (v = 0) := by
  by_cases hz : v = 0 <;> by_cases hn : v &&& 128 ≠ 0 <;>
    simp [CPU.update_zero_and_negative_flags, hz, hn,
      Nat.testBit_lor, Nat.testBit_land,
      show Nat.testBit 2 1 = true from rfl,
      show Nat.testBit 253 1 = false from rfl,
      show Nat.testBit 127 1 = true from rfl,
      show Nat.testBit 128 1 = false from rfl]

lemma update_flags_testBit7 (cpu : CPU) (v : Nat) :
    ((cpu.update_zero_and_negative_flags v).status).testBit 7 = v.testBit 7 := by
  by_cases hn : v &&& 128 ≠ 0
  · have h7 := (and128_ne_zero_iff v).mp hn
    simp [CPU.update_zero_and_negative_flags, hn, Nat.testBit_lor,
      show Nat.testBit 128 7 = true from rfl, h7]
  · have h7 : v.testBit 7 = false := by
      cases h : v.testBit 7
      · rfl
      · exact absurd ((and128_ne_zero_iff v).mpr h) hn
    simp [CPU.update_zero_and_negative_flags, hn, Nat.testBit_land,
      show Nat.testBit 127 7 = false from rfl, h7]

lemma update_flags_mask (cpu : CPU) (v : Nat) :
    (cpu.update_zero_and_negative_flags v).status &&& 0x7D
      = cpu.status &&& 0x7D := by
  simp only [CPU.update_zero_and_negative_flags]
  have h1 : (if v = 0 then cpu.status ||| 2 else cpu.status &&& 253) &&& 125
      = cpu.status &&& 125 := by
    split
    · rw [Nat.and_comm (cpu.status ||| 2) 125, Nat.and_or_distrib_left,
        show (125 &&& 2 : Nat) = 0 from rfl, Nat.or_zero,
        Nat.and_comm 125 cpu.status]
    · rw [Nat.and_assoc, show (253 &&& 125 : Nat) = 125 from rfl]
  generalize ht : (if v = 0 then cpu.status ||| 2 else cpu.status &&& 253) = t
  rw [ht] at h1
  split
  · rw [Nat.and_comm (t ||| 128) 125, Nat.and_or_distrib_left,
      show (125 &&& 128 : Nat) = 0 from rfl, Nat.or_zero, Nat.and_comm 125 t, h1]
  · rw [Nat.and_assoc, show (127 &&& 125 : Nat) = 125 from rfl, h1]

lemma update_flags_status_lt (cpu : CPU) (v : Nat) :
    (cpu.update_zero_and_negative_flags v).status < 256 := by
  by_cases hz : v = 0 <;> by_cases hn : v &&& 128 ≠ 0 <;>
    simp [CPU.update_zero_and_negative_flags, hz, hn] <;>
    first
    | exact lt_of_lt_of_le (Nat.and_lt_two_pow _ (show (127 : Nat) < 2 ^ 8 by norm_num))
        (by norm_num)
    | exact lt_of_lt_of_le
        (Nat.or_lt_two_pow
          (Nat.and_lt_two_pow _ (show (253 : Nat) < 2 ^ 8 by norm_num))
          (show (128 : Nat) < 2 ^ 8 by norm_num))
        (by norm_num)

lemma update_flags_frame (cpu : CPU) (v : Nat) :
    (cpu.update_zero_and_negative_flags v).a = cpu.a
    ∧ (cpu.update_zero_and_negative_flags v).x = cpu.x
    ∧ (cpu.update_zero_and_negative_flags v).y = cpu.y
    ∧ (cpu.update_zero_and_negative_flags v).sp = cpu.sp
    ∧ (cpu.update_zero_and_negative_flags v).pc = cpu.pc
    ∧ (cpu.update_zero_and_negative_flags v).memory = cpu.memory := by
  simp [CPU.update_zero_and_negative_flags]

/-! ### Evaluation lemmas for the step interpreter and block invocation -/

lemma execute_skip (cpu : CPU) (hpc : cpu.pc < 0xFFFF)
    (hop : cpu.memory cpu.pc ≠ 0xA9) :
    cpu.execute_instruction = .ok { cpu with pc := cpu.pc + 1 } := by
  have h1 : cpu.pc < 0x10000 := by omega
  have h2 : cpu.pc + 1 ≤ 0xFFFF := by omega
  simp [CPU.execute_instruction, memRead, u16add, h1, h2, hop, bind,
    Except.bind, pure, Except.pure]

lemma execute_lda (cpu : CPU) (hpc : cpu.pc ≤ 0xFFFD)
    (hop : cpu.memory cpu.pc = 0xA9) :
    cpu.execute_instruction
      = .ok (({ cpu with a := cpu.memory (cpu.pc + 1), pc := cpu.pc + 2
          } : CPU).update_zero_and_negative_flags (cpu.memory (cpu.pc + 1))) := by
  have h1 : cpu.pc < 0x10000 := by omega
  have h2 : cpu.pc + 1 ≤ 0xFFFF := by omega
  have h3 : cpu.pc + 1 < 0x10000 := by omega
  have h4 : cpu.pc + 1 + 1 ≤ 0xFFFF := by omega
  have h5 : cpu.pc + 1 + 1 = cpu.pc + 2 := by omega
  simp [CPU.execute_instruction, memRead, u16add, h1, h2, h3, h4, h5, hop,
    bind, Except.bind, pure, Except.pure, Except.map, Functor.map]

lemma invokeBlock_fallback_eq (cpu : CPU) :
    invokeBlock .fallback cpu
      = (cpu.execute_instruction).map (fun c => (c, c.pc)) := by
  cases h : cpu.execute_instruction <;>
    simp [invokeBlock, h, bind, Except.bind, pure, Except.pure, Except.map,
      Functor.map]

lemma invokeBlock_lda (cpu : CPU) (V : Nat) (hpc : cpu.pc + 2 ≤ 0xFFFF) :
    invokeBlock (.compiled [.lda V]) cpu
      = .ok ({ (({ cpu with a := V } : CPU).update_zero_and_negative_flags V)
                 with pc := cpu.pc + 2 }, cpu.pc + 2) := by
  have hp : (({ cpu with a := V } : CPU).update_zero_and_negative_flags V).pc
      = cpu.pc := by
    simp [CPU.update_zero_and_negative_flags]
  simp [invokeBlock, runOps, runMicroOp, u16add, hp, hpc]

lemma invokeBlock_jmp (cpu : CPU) (addr : Nat) :
    invokeBlock (.compiled [.jmp addr]) cpu
      = .ok ({ cpu with pc := addr }, addr) := rfl

/-! ### Claim theorems -/

/-- C3 (code bug): translating a block whose entry address 0xFFFE holds
the 0x4C (jump-absolute) opcode makes the decoder read
`memory[pc as usize + 1]` with `pc = 0xFFFF`, i.e. index 0x10000 — one
past the end of the 65536-byte memory array, an out-of-bounds panic in
the Rust source. So decoding does not, for every memory image and entry
address, complete without error: this run fails with an out-of-range
memory index on an instruction whose operand bytes lie at 0xFFFF and
0x10000. -/
theorem c3_theorem :
    translateBlock memJmpAtTop 0xFFFE = .error (.oobIndex 0x10000) := rfl

/-- C6 (confirmed): if memory holds 0x00 (break) at the entry address,
the compiled block contains zero micro-operations, and invoking the
empty block from any CPU state returns that CPU's current program
counter and leaves the whole state (registers, flag byte, memory)
unchanged. -/
theorem c6_theorem (mem : Nat → Nat) (a : Nat) (cpu : CPU) (h : mem a = 0) :
    translateBlock mem a = .ok (.compiled [])
    ∧ invokeBlock (.compiled []) cpu = .ok (cpu, cpu.pc) :=
  ⟨translateLoop_stop mem 0x10000 a [] (by norm_num) (Or.inr h), rfl⟩

/-- C6 witness: the break-at-entry theorem instantiated with the all-zero
memory image, entry address 0x1234 and the power-on CPU state. -/
theorem c6_witness :
    translateBlock (fun _ => 0) 0x1234 = .ok (.compiled [])
    ∧ invokeBlock (.compiled []) CPU.new = .ok (CPU.new, CPU.new.pc) :=
  c6_theorem (fun _ => 0) 0x1234 CPU.new rfl

/-- C8 (confirmed): the flag update from a value sets the Zero flag
(bit 1 of the flag byte) iff the value is zero, sets the Negative flag
(bit 7) iff bit 7 of the value is set, leaves the remaining bits of the
flag byte unchanged (bits 0, 2, 3, 4, 5, 6 — mask 0x7D — agree, and the
result is again byte-sized), and changes no other CPU state. -/
theorem c8_theorem (cpu : CPU) (value : Nat) :
    ((cpu.update_zero_and_negative_flags value).status).testBit 1
        = decide (value = 0)
    ∧ ((cpu.update_zero_and_negative_flags value).status).testBit 7
        = value.testBit 7
    ∧ (cpu.update_zero_and_negative_flags value).status &&& 0x7D
        = cpu.status &&& 0x7D
    ∧ (cpu.update_zero_and_negative_flags value).status < 256
    ∧ (cpu.update_zero_and_negative_flags value).a = cpu.a
    ∧ (cpu.update_zero_and_negative_flags value).x = cpu.x
    ∧ (cpu.update_zero_and_negative_flags value).y = cpu.y
    ∧ (cpu.update_zero_and_negative_flags value).sp = cpu.sp
    ∧ (cpu.update_zero_and_negative_flags value).pc = cpu.pc
    ∧ (cpu.update_zero_and_negative_flags value).memory = cpu.memory := by
  refine ⟨update_flags_testBit1 cpu value, update_flags_testBit7 cpu value,
    update_flags_mask cpu value, update_flags_status_lt cpu value, ?_⟩
  exact update_flags_frame cpu value

/-- C10 (confirmed): when the step interpreter meets an opcode other
than 0xA9 at a program counter below 0xFFFF, it advances the program
counter by exactly 1 and leaves A, X, Y, SP, the flag byte and all of
memory unchanged — it skips and continues rather than halting. -/
theorem c10_theorem (cpu : CPU) (hpc : cpu.pc < 0xFFFF)
    (hop : cpu.memory cpu.pc ≠ 0xA9) :
    cpu.execute_instruction = .ok { cpu with pc := cpu.pc + 1 } :=
  execute_skip cpu hpc hop

/-- C10 witness: the skip behaviour at the power-on CPU (opcode 0x00 at
pc = 0x8000). -/
theorem c10_witness :
    CPU.new.execute_instruction = .ok { CPU.new with pc := CPU.new.pc + 1 } :=
  c10_theorem CPU.new (by norm_num [CPU.new]) (by norm_num [CPU.new])

/-- C1 counterexample: for the known opcode 0x4C the claimed equivalence
fails. With `JMP 0x9000` at 0x8000 (followed by a break byte, so the
compiled block holds exactly one micro-operation), invoking the compiled
block from pc = 0x8000 ends with pc = 0x9000, while the step interpreter
— which does not implement 0x4C — ends with pc = 0x8001 and all
registers unchanged; the two register/flag/pc outcomes differ. -/
theorem c1_counterexample :
    ((translateBlock cpuJmp.memory cpuJmp.pc) >>= fun b => invokeBlock b cpuJmp).map
        (fun r => (regsOf r.1, r.2))
      = .ok ((0, 0, 0, 0xFD, 0x9000, 0x24), 0x9000)
    ∧ ((cpuJmp.execute_instruction).map (fun c => (c, c.pc))).map
        (fun r => (regsOf r.1, r.2))
      = .ok ((0, 0, 0, 0xFD, 0x8001, 0x24), 0x8001)
    ∧ (((0, 0, 0, 0xFD, 0x9000, 0x24), 0x9000)
        : (Nat × Nat × Nat × Nat × Nat × Nat) × Nat)
      ≠ ((0, 0, 0, 0xFD, 0x8001, 0x24), 0x8001) :=
  ⟨rfl, rfl, by decide⟩

/-- C1 (corrected): the compile-then-execute/interpret equivalence holds
for opcode 0xA9 — the only opcode of the translator's known set that the
step interpreter implements. If memory holds 0xA9 at the program counter
(with a break byte after the operand, so the compiled block holds
exactly that one instruction, and pc ≤ 0xFFFD so neither path
overflows), compiling the block and invoking it produces exactly the
same CPU state and resume program counter as the step interpreter. -/
theorem c1_theorem (cpu : CPU) (hpc : cpu.pc ≤ 0xFFFD)
    (hop : cpu.memory cpu.pc = 0xA9) (hbrk : cpu.memory (cpu.pc + 2) = 0) :
    ((translateBlock cpu.memory cpu.pc) >>= fun b => invokeBlock b cpu)
      = (cpu.execute_instruction).map (fun c => (c, c.pc)) := by
  have htr : translateBlock cpu.memory cpu.pc
      = .ok (.compiled [.lda (cpu.memory (cpu.pc + 1))]) := by
    unfold translateBlock
    rw [translateLoop_lda cpu.memory 0x10000 cpu.pc [] (by norm_num) (by omega)
      hop (by omega)]
    rw [List.nil_append]
    exact translateLoop_stop cpu.memory (0x10000 - 1) (cpu.pc + 2) _
      (by norm_num) (Or.inr hbrk)
  have hp2 : cpu.pc + 2 ≤ 0xFFFF := by omega
  rw [htr, execute_lda cpu hpc hop]
  simp [invokeBlock, runOps, runMicroOp, u16add, CPU.update_zero_and_negative_flags,
    hp2, bind, Except.bind, pure, Except.pure, Except.map]

/-- C1 witness: the 0xA9 equivalence at the concrete program
`LDA #0x42` at 0x8000. -/
theorem c1_witness :
    ((translateBlock cpuLda.memory cpuLda.pc) >>= fun b => invokeBlock b cpuLda)
      = (cpuLda.execute_instruction).map (fun c => (c, c.pc)) :=
  c1_theorem cpuLda (by decide) (by decide) (by decide)

/-- C2 counterexample: the step interpreter behind the fallback block
does not support opcode 0x4C with its specified effect. Invoking a
fallback block on `JMP 0x9000` at pc = 0x8000 returns resume address
0x8001 (skip-and-continue), not the jump target 0x9000 that the
specified effect of 0x4C requires. -/
theorem c2_counterexample :
    (invokeBlock .fallback cpuJmp).map (fun r => r.2) = .ok 0x8001
    ∧ (0x8001 : Nat) ≠ 0x9000 :=
  ⟨rfl, by decide⟩

/-- C2 (corrected): invoking a fallback block does execute exactly one
instruction, read from memory at the CPU's current program counter,
through the step interpreter, and returns the resulting program counter
— but that interpreter implements only opcode 0xA9 with its specified
effect; every other opcode (including the translator's 0x4C and 0x00)
merely advances the program counter by 1 and changes nothing else. -/
theorem c2_theorem (cpu : CPU) (hpc : cpu.pc ≤ 0xFFFD) :
    invokeBlock .fallback cpu
        = (cpu.execute_instruction).map (fun c => (c, c.pc))
    ∧ (cpu.memory cpu.pc = 0xA9 →
        cpu.execute_instruction
          = .ok (({ cpu with a := cpu.memory (cpu.pc + 1), pc := cpu.pc + 2
              } : CPU).update_zero_and_negative_flags (cpu.memory (cpu.pc + 1))))
    ∧ (cpu.memory cpu.pc ≠ 0xA9 →
        cpu.execute_instruction = .ok { cpu with pc := cpu.pc + 1 }) :=
  ⟨invokeBlock_fallback_eq cpu,
   fun hop => execute_lda cpu hpc hop,
   fun hop => execute_skip cpu (by omega) hop⟩

/-- C2 witness: the fallback behaviour at the concrete program
`LDA #0x42` at 0x8000, with both the delegation equation and the 0xA9
interpreter effect discharged. -/
theorem c2_witness :
    invokeBlock .fallback cpuLda
        = (cpuLda.execute_instruction).map (fun c => (c, c.pc))
    ∧ cpuLda.execute_instruction
        = .ok (({ cpuLda with a := cpuLda.memory (cpuLda.pc + 1), pc := cpuLda.pc + 2
            } : CPU).update_zero_and_negative_flags
              (cpuLda.memory (cpuLda.pc + 1))) := by
  have h := c2_theorem cpuLda (by decide)
  exact ⟨h.1, h.2.1 (by decide)⟩

/-- Recombination of a 16-bit value from its little-endian bytes, as the
decoder computes it: `(high <<< 8) ||| low`. -/
lemma recombine_bytes (T : Nat) (hT : T < 0x10000) :
    ((T / 256) <<< 8) ||| T % 256 = T := by
  rw [Nat.shiftLeft_eq]
  calc T / 256 * 2 ^ 8 ||| T % 256
      = 2 ^ 8 * (T / 256) ||| T % 256 := by rw [Nat.mul_comm]
    _ = 2 ^ 8 * (T / 256) + T % 256 :=
        (Nat.mul_add_lt_is_or (Nat.mod_lt T (by norm_num)) (T / 256)).symm
    _ = T := by omega

/-- C4 counterexample: with `LDA #0x01` at 0x8000 immediately followed
by `LDA #0x02`, the hypotheses of the claim hold (memory[0x8000] = 0xA9,
memory[0x8001] = 0x01), yet decoding does not stop after one
instruction: the compiled block carries both loads, and invoking it from
pc = 0x8000 ends with A = 0x02 and pc = 0x8004 instead of the claimed
A = 0x01 and pc = 0x8002. -/
theorem c4_counterexample :
    memDoubleLda 0x8000 = 0xA9
    ∧ memDoubleLda 0x8001 = 0x01
    ∧ ((translateBlock memDoubleLda 0x8000) >>= fun b => invokeBlock b cpuDoubleLda).map
        (fun r => (r.1.a, r.2))
      = .ok (0x02, 0x8004)
    ∧ ((0x02, 0x8004) : Nat × Nat) ≠ (0x01, 0x8002) :=
  ⟨rfl, rfl, rfl, by decide⟩

/-- C4 (corrected): the claimed LDA-immediate behaviour holds once the
block really is the single load — i.e. the byte after the operand is a
break (0x00) so decoding stops — and the entry address stays at or below
0xFFFD so that decoding and execution stay inside the 16-bit space.
Then compiling at `a` and invoking from pc = a yields A = V, resume
pc = a + 2, Zero flag iff V = 0 and Negative flag iff bit 7 of V. -/
theorem c4_theorem (mem : Nat → Nat) (a V : Nat) (cpu : CPU)
    (ha : a ≤ 0xFFFD) (hop : mem a = 0xA9) (hV : mem (a + 1) = V)
    (hbrk : mem (a + 2) = 0) (hmem : cpu.memory = mem) (hcpu : cpu.pc = a) :
    ((translateBlock mem a) >>= fun b => invokeBlock b cpu).map
        (fun r => (r.1.a, r.2, (r.1.status).testBit 1, (r.1.status).testBit 7))
      = .ok (V, a + 2, decide (V = 0), V.testBit 7) := by
  subst hcpu
  have htr : translateBlock mem cpu.pc = .ok (.compiled [.lda V]) := by
    unfold translateBlock
    rw [translateLoop_lda mem 0x10000 cpu.pc [] (by norm_num) (by omega) hop
      (by omega)]
    rw [List.nil_append, hV]
    exact translateLoop_stop mem (0x10000 - 1) (cpu.pc + 2) _ (by norm_num)
      (Or.inr hbrk)
  have hp2 : cpu.pc + 2 ≤ 0xFFFF := by omega
  rw [htr]
  have hinv := invokeBlock_lda cpu V hp2
  simp only [bind, Except.bind, hinv, Except.map]
  have hb1 := update_flags_testBit1 ({ cpu with a := V } : CPU) V
  have hb7 := update_flags_testBit7 ({ cpu with a := V } : CPU) V
  have hfr := update_flags_frame ({ cpu with a := V } : CPU) V
  simp [hb1, hb7, hfr.1]

/-- C4 witness: the corrected LDA property at the concrete program
`LDA #0x42` at 0x8000 followed by a break byte. -/
theorem c4_witness :
    ((translateBlock cpuLda.memory 0x8000) >>= fun b => invokeBlock b cpuLda).map
        (fun r => (r.1.a, r.2, (r.1.status).testBit 1, (r.1.status).testBit 7))
      = .ok (0x42, 0x8000 + 2, decide ((0x42 : Nat) = 0), (0x42 : Nat).testBit 7) :=
  c4_theorem cpuLda.memory 0x8000 0x42 cpuLda (by decide) (by decide) (by decide)
    (by decide) rfl rfl

/-- C5 counterexample: with `JMP 0x9000` at 0x8000 followed by
`LDA #0x07`, the hypotheses of the claim hold (memory[0x8000] = 0x4C and
the little-endian target 0x9000 in the next two bytes), yet decoding
continues past the jump: the compiled block also carries the load, and
invoking it from pc = 0x8000 returns resume address 0x9002, not exactly
the jump target 0x9000. -/
theorem c5_counterexample :
    memJmpLda 0x8000 = 0x4C
    ∧ memJmpLda 0x8001 = 0x9000 % 256
    ∧ memJmpLda 0x8002 = 0x9000 / 256
    ∧ ((translateBlock memJmpLda 0x8000) >>= fun b => invokeBlock b cpuJmpLda).map
        (fun r => r.2)
      = .ok 0x9002
    ∧ (0x9002 : Nat) ≠ 0x9000 :=
  ⟨rfl, rfl, rfl, rfl, by decide⟩

/-- C5 (corrected): the claimed JMP-absolute behaviour holds once the
block really is the single jump — i.e. the byte after the two operand
bytes is a break (0x00) so decoding stops — and the entry address stays
at or below 0xFFFC so that the three-byte instruction decodes inside the
16-bit space. Then compiling at `a` and invoking from pc = a returns
resume address exactly T, including the self-jump case T = a. -/
theorem c5_theorem (mem : Nat → Nat) (a T : Nat) (cpu : CPU)
    (ha : a ≤ 0xFFFC) (hop : mem a = 0x4C)
    (hlo : mem (a + 1) = T % 256) (hhi : mem (a + 2) = T / 256)
    (hT : T < 0x10000) (hbrk : mem (a + 3) = 0)
    (hmem : cpu.memory = mem) (hcpu : cpu.pc = a) :
    ((translateBlock mem a) >>= fun b => invokeBlock b cpu).map (fun r => r.2)
      = .ok T := by
  have htr : translateBlock mem a = .ok (.compiled [.jmp T]) := by
    unfold translateBlock
    rw [translateLoop_jmp mem 0x10000 a [] (by norm_num) (by omega) hop (by omega)]
    rw [List.nil_append, hlo, hhi, recombine_bytes T hT]
    exact translateLoop_stop mem (0x10000 - 1) (a + 3) _ (by norm_num)
      (Or.inr hbrk)
  rw [htr]
  simp only [bind, Except.bind, invokeBlock_jmp, Except.map]

/-- C5 witness: the corrected JMP property in the self-jump case
`JMP 0x8000` located at 0x8000 itself. -/
theorem c5_witness :
    ((translateBlock cpuJmpSelf.memory 0x8000) >>= fun b => invokeBlock b cpuJmpSelf).map
        (fun r => r.2)
      = .ok 0x8000 :=
  c5_theorem cpuJmpSelf.memory 0x8000 0x8000 cpuJmpSelf (by decide) (by decide)
    (by decide) (by decide) (by decide) (by decide) rfl rfl

/-- C7 (confirmed): the block cache behaves as `entry/or_insert_with`.
On a hit it returns the stored block with the cache unchanged and never
consults memory (so no re-translation happens); on a miss it translates,
inserts and returns the new block, after which the address resolves to
that block; any existing association survives every resolve (no
eviction or replacement); and resolving again after a successful resolve
returns the very same cache and block, so translation runs at most once
per distinct address and an address is never associated with two
different blocks. -/
theorem c7_theorem (d : Dynarec) (mem : Nat → Nat) (a : Nat) :
    (∀ b, lookupBlock d.compiled_blocks a = some b →
      d.translate_block mem a = .ok (d, b)
      ∧ ∀ mem2, d.translate_block mem2 a = d.translate_block mem a)
    ∧ (lookupBlock d.compiled_blocks a = none →
      ∀ b, translateBlock mem a = .ok b →
        d.translate_block mem a = .ok (⟨(a, b) :: d.compiled_blocks⟩, b)
        ∧ lookupBlock ((a, b) :: d.compiled_blocks) a = some b)
    ∧ (∀ d2 b2 a' b', d.translate_block mem a = .ok (d2, b2) →
        lookupBlock d.compiled_blocks a' = some b' →
        lookupBlock d2.compiled_blocks a' = some b')
    ∧ (∀ d2 b2, d.translate_block mem a = .ok (d2, b2) →
        d2.translate_block mem a = .ok (d2, b2)) := by
  refine ⟨?hit, ?miss, ?preserve, ?idem⟩
  case hit =>
    intro b hb
    constructor
    · simp [Dynarec.translate_block, hb]
    · intro mem2
      simp [Dynarec.translate_block, hb]
  case miss =>
    intro hnone b htr
    constructor
    · simp [Dynarec.translate_block, hnone, htr]
    · simp [lookupBlock]
  case preserve =>
    intro d2 b2 a' b' h hb'
    unfold Dynarec.translate_block at h
    cases hl : lookupBlock d.compiled_blocks a with
    | some bb =>
      rw [hl] at h
      simp only [Except.ok.injEq, Prod.mk.injEq] at h
      rw [← h.1]
      exact hb'
    | none =>
      rw [hl] at h
      cases htr : translateBlock mem a with
      | error e => rw [htr] at h; simp at h
      | ok b =>
        rw [htr] at h
        simp only [Except.ok.injEq, Prod.mk.injEq] at h
        rw [← h.1]
        by_cases haa : a = a'
        · subst haa
          rw [hl] at hb'
          exact absurd hb' (by simp)
        · simpa [lookupBlock, haa] using hb'
  case idem =>
    intro d2 b2 h
    unfold Dynarec.translate_block at h
    cases hl : lookupBlock d.compiled_blocks a with
    | some bb =>
      rw [hl] at h
      simp only [Except.ok.injEq, Prod.mk.injEq] at h
      rw [← h.1, ← h.2]
      simp [Dynarec.translate_block, hl]
    | none =>
      rw [hl] at h
      cases htr : translateBlock mem a with
      | error e => rw [htr] at h; simp at h
      | ok b =>
        rw [htr] at h
        simp only [Except.ok.injEq, Prod.mk.injEq] at h
        rw [← h.1, ← h.2]
        simp [Dynarec.translate_block, lookupBlock]

/-- C7 witness: resolving address 0x8000 in the empty cache with the
all-zero memory image translates once, inserts the empty compiled block,
and afterwards the address resolves to exactly that block. -/
theorem c7_witness :
    Dynarec.translate_block Dynarec.new (fun _ => 0) 0x8000
        = .ok (⟨[(0x8000, Block.compiled [])]⟩, Block.compiled [])
    ∧ lookupBlock [(0x8000, Block.compiled [])] 0x8000
        = some (Block.compiled []) :=
  (c7_theorem Dynarec.new (fun _ => 0) 0x8000).2.1 rfl (Block.compiled []) rfl

/-- Memory is never written by a micro-operation: the closure bodies
only touch registers, flags and the program counter. -/
lemma runMicroOp_mem (op : MicroOp) (c d : CPU) (h : runMicroOp op c = .ok d) :
    d.memory = c.memory := by
  cases op with
  | lda v =>
    simp only [runMicroOp, u16add, CPU.update_zero_and_negative_flags, bind,
      Except.bind, pure, Except.pure] at h
    split at h <;> cases h <;> rfl
  | jmp addr =>
    simp only [runMicroOp, pure, Except.pure] at h
    cases h
    rfl

/-- Running a list of micro-operations never changes memory. -/
lemma runOps_mem (ops : List MicroOp) (c d : CPU) (h : runOps ops c = .ok d) :
    d.memory = c.memory := by
  induction ops generalizing c with
  | nil =>
    simp only [runOps, pure, Except.pure] at h
    cases h
    rfl
  | cons op rest ih =>
    simp only [runOps, bind, Except.bind] at h
    cases hstep : runMicroOp op c with
    | error e => rw [hstep] at h; cases h
    | ok c' =>
      rw [hstep] at h
      exact (ih c' h).trans (runMicroOp_mem op c c' hstep)

/-- A single micro-operation is a function of the registers and flags
alone: states agreeing on them (memory arbitrary) step to the same
outcome on registers and flags, or fail identically. -/
lemma runMicroOp_regs (op : MicroOp) (c1 c2 : CPU) (h : regsOf c1 = regsOf c2) :
    (runMicroOp op c1).map regsOf = (runMicroOp op c2).map regsOf := by
  simp only [regsOf, Prod.mk.injEq] at h
  obtain ⟨ha, hx, hy, hsp, hpc, hst⟩ := h
  cases op with
  | lda v =>
    simp only [runMicroOp, u16add, CPU.update_zero_and_negative_flags, bind,
      Except.bind, pure, Except.pure, hpc, hst]
    split <;> simp [Except.map, regsOf, hx, hy, hsp]
  | jmp addr =>
    simp [runMicroOp, pure, Except.pure, Except.map, regsOf, ha, hx, hy, hsp,
      hpc, hst]

/-- Running a list of micro-operations is a function of the registers
and flags alone. -/
lemma runOps_regs (ops : List MicroOp) (c1 c2 : CPU) (h : regsOf c1 = regsOf c2) :
    (runOps ops c1).map regsOf = (runOps ops c2).map regsOf := by
  induction ops generalizing c1 c2 with
  | nil => simpa [runOps, pure, Except.pure, Except.map]
  | cons op rest ih =>
    have hstep := runMicroOp_regs op c1 c2 h
    simp only [runOps, bind, Except.bind]
    cases h1 : runMicroOp op c1 with
    | error e =>
      cases h2 : runMicroOp op c2 with
      | error e' =>
        rw [h1, h2] at hstep
        simp only [Except.map] at hstep
        cases hstep
        rfl
      | ok c2' => rw [h1, h2] at hstep; simp [Except.map] at hstep
    | ok c1' =>
      cases h2 : runMicroOp op c2 with
      | error e' => rw [h1, h2] at hstep; simp [Except.map] at hstep
      | ok c2' =>
        rw [h1, h2] at hstep
        simp only [Except.map, Except.ok.injEq] at hstep
        exact ih c1' c2' hstep

/-- C9 (confirmed): invoking a non-fallback compiled block depends only
on the operands captured in its micro-operations and the register/flag
state at invocation — two invocations from identical register/flag
states with arbitrarily different memory images yield identical
register, flag and resume-program-counter results (or fail
identically), and invocation leaves the invoking CPU's memory exactly
as it was: it never reads or writes memory. -/
theorem c9_theorem (ops : List MicroOp) (c1 c2 : CPU)
    (h : regsOf c1 = regsOf c2) :
    (invokeBlock (.compiled ops) c1).map (fun r => (regsOf r.1, r.2))
      = (invokeBlock (.compiled ops) c2).map (fun r => (regsOf r.1, r.2))
    ∧ (invokeBlock (.compiled ops) c1).map (fun r => r.1.memory)
      = (invokeBlock (.compiled ops) c1).map (fun _ => c1.memory) := by
  constructor
  · have hr := runOps_regs ops c1 c2 h
    simp only [invokeBlock, bind, Except.bind]
    cases h1 : runOps ops c1 with
    | error e =>
      cases h2 : runOps ops c2 with
      | error e' =>
        rw [h1, h2] at hr
        simp only [Except.map] at hr
        cases hr
        rfl
      | ok d2 => rw [h1, h2] at hr; simp [Except.map] at hr
    | ok d1 =>
      cases h2 : runOps ops c2 with
      | error e' => rw [h1, h2] at hr; simp [Except.map] at hr
      | ok d2 =>
        rw [h1, h2] at hr
        simp only [Except.map, Except.ok.injEq] at hr
        have hpc : d1.pc = d2.pc := by
          have := congrArg (fun t => t.2.2.2.2.1) hr
          simpa [regsOf] using this
        simp [pure, Except.pure, Except.map, hr, hpc]
  · simp only [invokeBlock, bind, Except.bind]
    cases h1 : runOps ops c1 with
    | error e => rfl
    | ok d1 =>
      simp [pure, Except.pure, Except.map, runOps_mem ops c1 d1 h1]

/-- C9 witness: the compiled block `LDA #0x05` invoked from the power-on
register file over the all-zero memory and over a completely different
memory image gives identical register/flag/resume results, and leaves
memory untouched. -/
theorem c9_witness :
    (invokeBlock (.compiled [.lda 0x05]) CPU.new).map (fun r => (regsOf r.1, r.2))
      = (invokeBlock (.compiled [.lda 0x05]) cpuAltMem).map
          (fun r => (regsOf r.1, r.2))
    ∧ (invokeBlock (.compiled [.lda 0x05]) CPU.new).map (fun r => r.1.memory)
      = (invokeBlock (.compiled [.lda 0x05]) CPU.new).map
          (fun _ => CPU.new.memory) :=
  c9_theorem [.lda 0x05] CPU.new cpuAltMem rfl

end Dynarec6502
